import Mathlib

/-!
Shallow embedding of the two discharge-logger scripts of the
Footleg/power-monitoring repository:

* `li-battery_2S_logger.py` — the averaging variant (namespace `Li2S`):
  accumulates `readingsToAverage` raw samples per logged record,
  measures elapsed time with `monotonic_ns`, and reads a DS18B20
  temperature block with `read_temp`.
* `li-cell_logger.py` — the simple variant (namespace `LiCell`):
  logs every raw sample and derives total time from
  `logInterval * totalReadings`.

Measured quantities are modelled as exact rationals (`ℚ`); the clock is
an explicit `elapsedNs : ℕ` input (the value `monotonic_ns() - startTime`
would yield at loop end); the sensor is an explicit list of samples; an
unexpected exception inside the loop body (sensor fault, keyboard
interrupt) is an `Inp.fault` input.  A run that exhausts its modelled
input list while the loop guard still holds is `none` (the loop is still
running; this is not an exit path of the program).
-/

namespace PowerMon

/-- Raw readings one loop iteration acquires: `ina260.voltage`,
`ina260.current` and (2S variant only) `read_temp()`. -/
structure Sample where
  volts : ℚ
  amps : ℚ
  temp : ℚ
deriving DecidableEq

/-- Mutable state of the 2S averaging loop: the loop-guard voltage, the
accumulator (`readCount`, `Vave`, `Aave`, `Tave`), the run-level tally
(`averageCurrent`, `totalReadings`), the averaged records appended to the
log so far, and a count of raw samples consumed. -/
structure LoopState where
  volts : ℚ
  readCount : ℕ
  Vave : ℚ
  Aave : ℚ
  Tave : ℚ
  averageCurrent : ℚ
  totalReadings : ℕ
  records : List (ℚ × ℚ × ℚ)
  samplesTaken : ℕ
deriving DecidableEq

/-- State at loop entry: `readCount = 0`, all sums zero, no records;
`volts0` is the initial `ina260.voltage` reading that seeds the guard. -/
def initState (volts0 : ℚ) : LoopState :=
  { volts := volts0, readCount := 0, Vave := 0, Aave := 0, Tave := 0,
    averageCurrent := 0, totalReadings := 0, records := [], samplesTaken := 0 }

/-- One iteration of the 2S loop body (lines 132-152 of
`li-battery_2S_logger.py`): accumulate the sample; on reaching
`readingsToAverage` (`rta`) emit the averaged record, reset the
accumulator, and update the run tally. -/
def loopBody (rta : ℕ) (st : LoopState) (s : Sample) : LoopState :=
  let Vave := st.Vave + s.volts
  let Aave := st.Aave + s.amps
  let Tave := st.Tave + s.temp
  let rc := st.readCount + 1
  if rta ≤ rc then
    let v := Vave / (rta : ℚ)
    let c := Aave / (rta : ℚ)
    let t := Tave / (rta : ℚ)
    { volts := v, readCount := 0, Vave := 0, Aave := 0, Tave := 0,
      averageCurrent := st.averageCurrent + c,
      totalReadings := st.totalReadings + 1,
      records := st.records ++ [(v, c, t)],
      samplesTaken := st.samplesTaken + 1 }
  else
    { st with
        Vave := Vave, Aave := Aave, Tave := Tave,
        readCount := rc, samplesTaken := st.samplesTaken + 1 }

/-- The 2S `while volts > endVoltage` loop over a list of raw samples.
Result `some st` is normal loop exit in state `st`; `none` means the
modelled sample list ran out while the guard still held. -/
def runLoop (ev : ℚ) (rta : ℕ) (st : LoopState) : List Sample → Option LoopState
  | [] => if ev < st.volts then none else some st
  | s :: rest =>
      if ev < st.volts then runLoop ev rta (loopBody rta st s) rest else some st

/-- Per-iteration environment input for runs in which the loop body may
raise: either the three sensor reads succeed, or one of them raises an
unexpected exception (sensor fault or external interruption). -/
inductive Inp where
  | sample (s : Sample)
  | fault
deriving DecidableEq

/-- The 2S loop with fault injection.  `some (.ok st)` is normal exit,
`some (.error ())` is an exception propagating out of the loop body,
`none` means the modelled input list ran out mid-run. -/
def runLoopF (ev : ℚ) (rta : ℕ) (st : LoopState) : List Inp → Option (Except Unit LoopState)
  | [] => if ev < st.volts then none else some (.ok st)
  | i :: rest =>
      if ev < st.volts then
        match i with
        | .sample s => runLoopF ev rta (loopBody rta st s) rest
        | .fault => some (.error ())
      else some (.ok st)

/-- End-of-run figures appended to the log and printed: average current
over the run, total elapsed hours, and capacity in mAH. -/
structure Summary where
  averageCurrent : ℚ
  totalHours : ℚ
  capacity : ℚ
deriving DecidableEq

/-- States of the four relay channels (`relay1` … `relay4`); `true` is
activated.  `gpiozero` LED outputs start deactivated. -/
structure Relays where
  r1 : Bool
  r2 : Bool
  r3 : Bool
  r4 : Bool
deriving DecidableEq

/-- All four channels deactivated, the state at process start. -/
def relaysInit : Relays := ⟨false, false, false, false⟩

/-- The `finally` block shared by both scripts:
`relay1.off(); relay2.off(); relay3.off(); relay4.off()`. -/
def finallyBlock (r : Relays) : Relays :=
  let r1off := { r with r1 := false }
  let r2off := { r1off with r2 := false }
  let r3off := { r2off with r3 := false }
  { r3off with r4 := false }

/-- Observable outcome of a whole run: the summary blocks appended to
the log (the "Total time" / "Capacity" lines), whether an exception
propagated out of the `try` body, and the final relay states. -/
structure ProgResult where
  summaries : List Summary
  faulted : Bool
  relays : Relays
deriving DecidableEq

namespace Li2S

/-- Battery voltage to end the run at (2S variant, line 71). -/
def endVoltage : ℚ := 5.8

/-- Seconds between readings (line 72). -/
def logInterval : ℚ := 15

/-- Number of readings averaged into each log line (line 73). -/
def readingsToAverage : ℕ := 8

end Li2S

/-- End-of-run statistics of `li-battery_2S_logger.py` (lines 154-162):
divide the current tally by the record count when nonzero, convert the
`monotonic_ns` difference to hours, multiply for capacity. -/
def li2sSummary (st : LoopState) (elapsedNs : ℕ) : Summary :=
  let averageCurrent :=
    if 0 < st.totalReadings then st.averageCurrent / (st.totalReadings : ℚ)
    else st.averageCurrent
  let totalSeconds : ℚ := (elapsedNs : ℚ) / 1000000000
  let totalHours := totalSeconds / 3600
  { averageCurrent := averageCurrent, totalHours := totalHours,
    capacity := averageCurrent * totalHours }

/-- Whole-program model of `li-battery_2S_logger.py`: `relay1.on()`,
then the averaging loop, then (only if the loop returned normally) the
end-of-run summary, with the `finally` block running on both paths. -/
def li2sMain (volts0 : ℚ) (elapsedNs : ℕ) (inputs : List Inp) : Option ProgResult :=
  let rOn := { relaysInit with r1 := true }
  match runLoopF Li2S.endVoltage Li2S.readingsToAverage (initState volts0) inputs with
  | none => none
  | some (.ok st) =>
      some { summaries := [li2sSummary st elapsedNs], faulted := false,
             relays := finallyBlock rOn }
  | some (.error _) =>
      some { summaries := [], faulted := true, relays := finallyBlock rOn }

namespace LiCell

/-- Battery voltage to end the run at (cell variant, line 66). -/
def endVoltage : ℚ := 2.7

/-- Seconds between readings (line 67). -/
def logInterval : ℚ := 15

end LiCell

/-- Mutable state of the simple (cell) loop: loop-guard voltage, run
tally, and the `volts,current` records appended to the log. -/
structure CellState where
  volts : ℚ
  averageCurrent : ℚ
  totalReadings : ℕ
  records : List (ℚ × ℚ)
deriving DecidableEq

/-- State at loop entry of the cell variant. -/
def cellInit (volts0 : ℚ) : CellState :=
  { volts := volts0, averageCurrent := 0, totalReadings := 0, records := [] }

/-- One iteration of the cell loop body (lines 90-95 of
`li-cell_logger.py`): read, log, tally.  Only voltage and current are
read; the sample's `temp` field is unused in this variant. -/
def cellBody (st : CellState) (s : Sample) : CellState :=
  { volts := s.volts, averageCurrent := st.averageCurrent + s.amps,
    totalReadings := st.totalReadings + 1,
    records := st.records ++ [(s.volts, s.amps)] }

/-- The cell `while volts > endVoltage` loop over a list of samples. -/
def cellLoop (ev : ℚ) (st : CellState) : List Sample → Option CellState
  | [] => if ev < st.volts then none else some st
  | s :: rest =>
      if ev < st.volts then cellLoop ev (cellBody st s) rest else some st

/-- The cell loop with fault injection, as `runLoopF`. -/
def cellLoopF (ev : ℚ) (st : CellState) : List Inp → Option (Except Unit CellState)
  | [] => if ev < st.volts then none else some (.ok st)
  | i :: rest =>
      if ev < st.volts then
        match i with
        | .sample s => cellLoopF ev (cellBody st s) rest
        | .fault => some (.error ())
      else some (.ok st)

/-- End-of-run statistics of `li-cell_logger.py` (lines 97-101):
`totalHours = logInterval * totalReadings / 3600`. -/
def cellSummary (st : CellState) : Summary :=
  let averageCurrent :=
    if 0 < st.totalReadings then st.averageCurrent / (st.totalReadings : ℚ)
    else st.averageCurrent
  let totalHours := LiCell.logInterval * (st.totalReadings : ℚ) / 3600
  { averageCurrent := averageCurrent, totalHours := totalHours,
    capacity := averageCurrent * totalHours }

/-- Whole-program model of `li-cell_logger.py`: `relay2.on()`, the
simple loop, the summary on normal exit only, `finally` on both paths. -/
def cellMain (volts0 : ℚ) (inputs : List Inp) : Option ProgResult :=
  let rOn := { relaysInit with r2 := true }
  match cellLoopF LiCell.endVoltage (cellInit volts0) inputs with
  | none => none
  | some (.ok st) =>
      some { summaries := [cellSummary st], faulted := false,
             relays := finallyBlock rOn }
  | some (.error _) =>
      some { summaries := [], faulted := true, relays := finallyBlock rOn }

/-!
Temperature sub-read of `li-battery_2S_logger.py` (lines 94-114).  A raw
status block (the result of one `read_temp_raw()`, i.e. `readlines()` on
the `w1_slave` file) is a `List (List Char)`: Python strings are
modelled as character lists.  Successive raw reads are an explicit
stream `reads : ℕ → List (List Char)`; the unbounded retry loop is given
fuel, with result `none` meaning it is still retrying when the fuel runs
out.  Python `float(...)` is an explicit parameter
`pf : List Char → Option ℚ` (`none` models `ValueError`).
-/

/-- Whitespace for Python `str.strip()`, restricted to the characters a
`w1_slave` line can carry. -/
def pyIsSpace (c : Char) : Bool :=
  c == ' ' || c == '\n' || c == '\t' || c == '\r'

/-- Python `s.strip()`: drop leading and trailing whitespace. -/
def pyStrip (l : List Char) : List Char :=
  ((l.dropWhile pyIsSpace).reverse.dropWhile pyIsSpace).reverse

/-- Python `s[-3:]`: the last three characters (the whole string when it
is shorter). -/
def lastThree (l : List Char) : List Char := l.drop (l.length - 3)

/-- The validity test `lines[0].strip()[-3:] != 'YES'` of line 104,
negated: `true` when the stripped first line ends in `YES`. -/
def statusValid (l0 : List Char) : Bool :=
  lastThree (pyStrip l0) == ['Y', 'E', 'S']

/-- Python `lines[1][equals_pos+2:]` after `equals_pos = lines[1].find('t=')`:
`some` of the text after the first `t=` marker, or `none` when
`find` returns `-1`. -/
def afterMarker : List Char → Option (List Char)
  | [] => none
  | 't' :: '=' :: tail => some tail
  | _ :: rest => afterMarker rest

/-- The retry loop of lines 104-106: re-read while the status line is
not valid.  `some (.error ())` models the `IndexError` the condition
itself raises on an empty block (caught by the surrounding `except`);
`some (.ok lines)` is loop exit with a valid block; `none` means the
fuel ran out with the loop still spinning. -/
def waitValid (reads : ℕ → List (List Char)) : ℕ → ℕ → Option (Except Unit (List (List Char)))
  | _, 0 => none
  | i, fuel + 1 =>
      match reads i with
      | [] => some (.error ())
      | l0 :: rest =>
          if statusValid l0 then some (.ok (l0 :: rest))
          else waitValid reads (i + 1) fuel

/-- The function `read_temp` (lines 100-114).  Outer `none`: the retry
loop never finished.  Inner value: what the Python function returns —
`some q` a parsed temperature, `some (-99)` the sentinel from the bare
`except`, `none` the implicit Python `None` when `equals_pos == -1`. -/
def read_temp (pf : List Char → Option ℚ) (reads : ℕ → List (List Char))
    (fuel : ℕ) : Option (Option ℚ) :=
  match waitValid reads 0 fuel with
  | none => none
  | some (.error _) => some (some (-99))
  | some (.ok lines) =>
      match lines.get? 1 with
      | none => some (some (-99))
      | some l1 =>
          match afterMarker l1 with
          | some temp_string =>
              match pf temp_string with
              | some temp_c => some (some (temp_c / 1000))
              | none => some (some (-99))
          | none => some none

/-!
Loop-exit characterization (claim C5) and the supporting invariant that
all records before the last carry a voltage above the threshold.
-/

/-- Records-so-far invariant: every record before the last is above the
threshold, and the loop-guard voltage is the last record's voltage as
soon as a record exists. -/
def recChain {α : Type} (ev volts : ℚ) (records : List (ℚ × α)) : Prop :=
  (∀ r ∈ records.dropLast, ev < r.1) ∧
  (records = [] ∨ records.getLast?.map Prod.fst = some volts)

lemma recChain_append {α : Type} (ev volts v : ℚ) (records : List (ℚ × α)) (x : α)
    (h : ev < volts) (hc : recChain ev volts records) :
    recChain ev v (records ++ [(v, x)]) := by
  obtain ⟨h1, h2⟩ := hc
  constructor
  · intro r hr
    rw [List.dropLast_concat] at hr
    by_cases hnil : records = []
    · simp [hnil] at hr
    · have hdec := List.dropLast_append_getLast hnil
      rw [← hdec] at hr
      rcases List.mem_append.mp hr with hin | hlast
      · exact h1 r hin
      · have hr' : r = records.getLast hnil := by simpa using hlast
        have h2' : records.getLast?.map Prod.fst = some volts := h2.resolve_left hnil
        rw [List.getLast?_eq_getLast records hnil] at h2'
        have : (records.getLast hnil).1 = volts := by simpa using h2'
        rw [hr', this]
        exact h
  · right
    simp [List.getLast?_concat]

lemma runLoop_exit (ev : ℚ) (rta : ℕ) (st : LoopState) (h : st.volts ≤ ev) :
    ∀ samples, runLoop ev rta st samples = some st := by
  intro samples
  cases samples with
  | nil => simp [runLoop, not_lt.mpr h]
  | cons s rest => simp [runLoop, not_lt.mpr h]

lemma runLoop_cons (ev : ℚ) (rta : ℕ) (st : LoopState) (s : Sample) (rest : List Sample)
    (h : ev < st.volts) :
    runLoop ev rta st (s :: rest) = runLoop ev rta (loopBody rta st s) rest := by
  simp [runLoop, h]

lemma runLoop_some_le (ev : ℚ) (rta : ℕ) :
    ∀ samples st st₂, runLoop ev rta st samples = some st₂ → st₂.volts ≤ ev := by
  intro samples
  induction samples with
  | nil =>
    intro st st₂ h
    by_cases hc : ev < st.volts
    · simp [runLoop, hc] at h
    · simp [runLoop, hc] at h
      rw [← h]
      exact not_lt.mp hc
  | cons s rest ih =>
    intro st st₂ h
    by_cases hc : ev < st.volts
    · rw [runLoop_cons ev rta st s rest hc] at h
      exact ih _ _ h
    · simp [runLoop, hc] at h
      rw [← h]
      exact not_lt.mp hc

lemma loopBody_recChain (ev : ℚ) (rta : ℕ) (st : LoopState) (s : Sample)
    (h : ev < st.volts) (hc : recChain ev st.volts st.records) :
    recChain ev (loopBody rta st s).volts (loopBody rta st s).records := by
  by_cases hb : rta ≤ st.readCount + 1
  · simp only [loopBody, hb, if_true]
    exact recChain_append ev st.volts _ st.records _ h hc
  · simp only [loopBody, hb, if_false]
    exact hc

lemma runLoop_recChain (ev : ℚ) (rta : ℕ) :
    ∀ samples st st₂, recChain ev st.volts st.records →
      runLoop ev rta st samples = some st₂ → recChain ev st₂.volts st₂.records := by
  intro samples
  induction samples with
  | nil =>
    intro st st₂ hc h
    by_cases hg : ev < st.volts
    · simp [runLoop, hg] at h
    · simp [runLoop, hg] at h
      rw [← h]
      exact hc
  | cons s rest ih =>
    intro st st₂ hc h
    by_cases hg : ev < st.volts
    · rw [runLoop_cons ev rta st s rest hg] at h
      exact ih _ _ (loopBody_recChain ev rta st s hg hc) h
    · simp [runLoop, hg] at h
      rw [← h]
      exact hc

lemma cellLoop_exit (ev : ℚ) (st : CellState) (h : st.volts ≤ ev) :
    ∀ samples, cellLoop ev st samples = some st := by
  intro samples
  cases samples with
  | nil => simp [cellLoop, not_lt.mpr h]
  | cons s rest => simp [cellLoop, not_lt.mpr h]

lemma cellLoop_cons (ev : ℚ) (st : CellState) (s : Sample) (rest : List Sample)
    (h : ev < st.volts) :
    cellLoop ev st (s :: rest) = cellLoop ev (cellBody st s) rest := by
  simp [cellLoop, h]

lemma cellLoop_some_le (ev : ℚ) :
    ∀ samples st st₂, cellLoop ev st samples = some st₂ → st₂.volts ≤ ev := by
  intro samples
  induction samples with
  | nil =>
    intro st st₂ h
    by_cases hc : ev < st.volts
    · simp [cellLoop, hc] at h
    · simp [cellLoop, hc] at h
      rw [← h]
      exact not_lt.mp hc
  | cons s rest ih =>
    intro st st₂ h
    by_cases hc : ev < st.volts
    · rw [cellLoop_cons ev st s rest hc] at h
      exact ih _ _ h
    · simp [cellLoop, hc] at h
      rw [← h]
      exact not_lt.mp hc

lemma cellLoop_recChain (ev : ℚ) :
    ∀ samples st st₂, recChain ev st.volts st.records →
      cellLoop ev st samples = some st₂ → recChain ev st₂.volts st₂.records := by
  intro samples
  induction samples with
  | nil =>
    intro st st₂ hc h
    by_cases hg : ev < st.volts
    · simp [cellLoop, hg] at h
    · simp [cellLoop, hg] at h
      rw [← h]
      exact hc
  | cons s rest ih =>
    intro st st₂ hc h
    by_cases hg : ev < st.volts
    · rw [cellLoop_cons ev st s rest hg] at h
      refine ih _ _ ?_ h
      exact recChain_append ev st.volts s.volts st.records s.amps hg hc
    · simp [cellLoop, hg] at h
      rw [← h]
      exact hc

lemma recChain_init {α : Type} (ev volts : ℚ) : recChain ev volts ([] : List (ℚ × α)) := by
  constructor
  · intro r hr
    simp at hr
  · left
    rfl

/-- Claim C5: the main loop of either variant terminates exactly when
the loop-guard voltage — the latest averaged record's voltage in the 2S
variant, the latest raw sample's voltage in the cell variant — is at or
below `endVoltage`: exit with guard at or below threshold, one more
iteration whenever the guard is strictly above; moreover on any normal
exit every earlier record was strictly above the threshold and the guard
equals the last record's voltage (so the run stops at the first record
at or below `endVoltage`). -/
theorem loop_terminates_at_threshold (ev : ℚ) (rta : ℕ) :
    (∀ st samples, st.volts ≤ ev → runLoop ev rta st samples = some st) ∧
    (∀ st s rest, ev < st.volts →
       runLoop ev rta st (s :: rest) = runLoop ev rta (loopBody rta st s) rest) ∧
    (∀ v0 samples st₂, runLoop ev rta (initState v0) samples = some st₂ →
       st₂.volts ≤ ev ∧ (∀ r ∈ st₂.records.dropLast, ev < r.1) ∧
       (st₂.records = [] ∨ st₂.records.getLast?.map Prod.fst = some st₂.volts)) ∧
    (∀ st samples, st.volts ≤ ev → cellLoop ev st samples = some st) ∧
    (∀ st s rest, ev < st.volts →
       cellLoop ev st (s :: rest) = cellLoop ev (cellBody st s) rest) ∧
    (∀ v0 samples st₂, cellLoop ev (cellInit v0) samples = some st₂ →
       st₂.volts ≤ ev ∧ (∀ r ∈ st₂.records.dropLast, ev < r.1) ∧
       (st₂.records = [] ∨ st₂.records.getLast?.map Prod.fst = some st₂.volts)) := by
  refine ⟨fun st samples h => runLoop_exit ev rta st h samples,
          fun st s rest h => runLoop_cons ev rta st s rest h,
          fun v0 samples st₂ h => ?_,
          fun st samples h => cellLoop_exit ev st h samples,
          fun st s rest h => cellLoop_cons ev st s rest h,
          fun v0 samples st₂ h => ?_⟩
  · have hch := runLoop_recChain ev rta samples (initState v0) st₂
      (recChain_init ev (initState v0).volts) h
    exact ⟨runLoop_some_le ev rta samples (initState v0) st₂ h, hch.1, hch.2⟩
  · have hch := cellLoop_recChain ev samples (cellInit v0) st₂
      (recChain_init ev (cellInit v0).volts) h
    exact ⟨cellLoop_some_le ev samples (cellInit v0) st₂ h, hch.1, hch.2⟩

/-- Witness for C5: concrete runs of both loops that start at or below
the threshold exit immediately. -/
theorem loop_terminates_at_threshold_witness :
    runLoop 5.8 8 (initState 1) [⟨9, 9, 9⟩] = some (initState 1) ∧
    cellLoop 2.7 (cellInit 1) [⟨9, 9, 9⟩] = some (cellInit 1) :=
  ⟨(loop_terminates_at_threshold 5.8 8).1 (initState 1) [⟨9, 9, 9⟩]
      (by norm_num [initState]),
   (loop_terminates_at_threshold 2.7 8).2.2.2.1 (cellInit 1) [⟨9, 9, 9⟩]
      (by norm_num [cellInit])⟩

/-!
Record-boundary invariant (claim C10): the guard voltage only changes
when a record is emitted, so a normal exit always lands exactly on a
record boundary with a freshly reset accumulator.
-/

/-- Loop invariant for C10: the accumulator count stays below the window
size and tracks the sample count modulo the window size, and whenever
the guard is at or below the threshold the accumulator is freshly
reset. -/
def boundaryInv (ev : ℚ) (rta : ℕ) (st : LoopState) : Prop :=
  st.readCount < rta ∧ st.samplesTaken % rta = st.readCount ∧
  (st.volts ≤ ev → st.readCount = 0 ∧ st.Vave = 0 ∧ st.Aave = 0 ∧ st.Tave = 0)

lemma loopBody_boundaryInv (ev : ℚ) (rta : ℕ) (st : LoopState) (s : Sample)
    (hg : ev < st.volts) (hinv : boundaryInv ev rta st) :
    boundaryInv ev rta (loopBody rta st s) := by
  obtain ⟨hlt, hmod, _⟩ := hinv
  have hstep : (st.samplesTaken + 1) % rta = (st.readCount + 1) % rta :=
    Nat.ModEq.add_right 1 (by rw [Nat.ModEq, hmod, Nat.mod_eq_of_lt hlt])
  by_cases hb : rta ≤ st.readCount + 1
  · have heq : st.readCount + 1 = rta := le_antisymm hlt hb
    refine ⟨?_, ?_, ?_⟩
    · simp only [loopBody, hb, if_true]
      omega
    · simp only [loopBody, hb, if_true]
      rw [hstep, heq, Nat.mod_self]
    · intro _
      simp [loopBody, hb]
  · have hlt2 : st.readCount + 1 < rta := lt_of_not_le hb
    refine ⟨?_, ?_, ?_⟩
    · simp only [loopBody, hb, if_false]
      exact hlt2
    · simp only [loopBody, hb, if_false]
      rw [hstep, Nat.mod_eq_of_lt hlt2]
    · intro hle
      exfalso
      have : (loopBody rta st s).volts = st.volts := by
        simp only [loopBody, hb, if_false]
      rw [this] at hle
      exact absurd hg (not_lt.mpr hle)

lemma runLoop_boundaryInv (ev : ℚ) (rta : ℕ) :
    ∀ samples st st₂, boundaryInv ev rta st →
      runLoop ev rta st samples = some st₂ → boundaryInv ev rta st₂ := by
  intro samples
  induction samples with
  | nil =>
    intro st st₂ hinv h
    by_cases hg : ev < st.volts
    · simp [runLoop, hg] at h
    · simp [runLoop, hg] at h
      rw [← h]
      exact hinv
  | cons s rest ih =>
    intro st st₂ hinv h
    by_cases hg : ev < st.volts
    · rw [runLoop_cons ev rta st s rest hg] at h
      exact ih _ _ (loopBody_boundaryInv ev rta st s hg hinv) h
    · simp [runLoop, hg] at h
      rw [← h]
      exact hinv

/-- Claim C10: on every normal exit of the 2S loop the accumulator is
empty — `readCount = 0`, the three running sums are `0` — and the total
number of raw samples consumed is an exact multiple of
`readingsToAverage`: the loop can only stop immediately after a record
boundary. -/
theorem normal_exit_at_record_boundary (ev v0 : ℚ) (rta : ℕ) (h1 : 1 ≤ rta)
    (samples : List Sample) (st₂ : LoopState)
    (h : runLoop ev rta (initState v0) samples = some st₂) :
    st₂.readCount = 0 ∧ st₂.Vave = 0 ∧ st₂.Aave = 0 ∧ st₂.Tave = 0 ∧
    st₂.samplesTaken % rta = 0 := by
  have hinit : boundaryInv ev rta (initState v0) := by
    refine ⟨h1, ?_, fun _ => ⟨rfl, rfl, rfl, rfl⟩⟩
    simp [initState]
  have hinv := runLoop_boundaryInv ev rta samples (initState v0) st₂ hinit h
  have hle := runLoop_some_le ev rta samples (initState v0) st₂ h
  obtain ⟨-, hmod, hreset⟩ := hinv
  obtain ⟨hrc, hV, hA, hT⟩ := hreset hle
  exact ⟨hrc, hV, hA, hT, by rw [hmod, hrc]⟩

/-- Witness for C10: a concrete two-sample run with a window of two that
exits right at its first record boundary. -/
theorem normal_exit_at_record_boundary_witness :
    (⟨5, 0, 0, 0, 0, 1, 1, [(5, 1, 0)], 2⟩ : LoopState).readCount = 0 ∧
    (⟨5, 0, 0, 0, 0, 1, 1, [(5, 1, 0)], 2⟩ : LoopState).Vave = 0 ∧
    (⟨5, 0, 0, 0, 0, 1, 1, [(5, 1, 0)], 2⟩ : LoopState).Aave = 0 ∧
    (⟨5, 0, 0, 0, 0, 1, 1, [(5, 1, 0)], 2⟩ : LoopState).Tave = 0 ∧
    (⟨5, 0, 0, 0, 0, 1, 1, [(5, 1, 0)], 2⟩ : LoopState).samplesTaken % 2 = 0 :=
  normal_exit_at_record_boundary 5 7 2 (by norm_num) [⟨6, 1, 0⟩, ⟨4, 1, 0⟩] _
    (by norm_num [runLoop, loopBody, initState])

/-!
Run-tally invariant (claims C7 and C8): the `averageCurrent` sum and the
`totalReadings` count track exactly the per-record averaged currents.
-/

/-- The run tally equals the sum of the logged records' current column,
and the reading count equals the number of logged records. -/
def tallyInv (st : LoopState) : Prop :=
  st.averageCurrent = (st.records.map (fun r => r.2.1)).sum ∧
  st.totalReadings = st.records.length

lemma loopBody_tallyInv (rta : ℕ) (st : LoopState) (s : Sample)
    (hinv : tallyInv st) : tallyInv (loopBody rta st s) := by
  obtain ⟨hsum, hlen⟩ := hinv
  by_cases hb : rta ≤ st.readCount + 1
  · constructor
    · simp only [loopBody, hb, if_true]
      simp [hsum]
    · simp only [loopBody, hb, if_true]
      simp [hlen]
  · constructor
    · simp only [loopBody, hb, if_false]
      exact hsum
    · simp only [loopBody, hb, if_false]
      exact hlen

lemma runLoop_tallyInv (ev : ℚ) (rta : ℕ) :
    ∀ samples st st₂, tallyInv st →
      runLoop ev rta st samples = some st₂ → tallyInv st₂ := by
  intro samples
  induction samples with
  | nil =>
    intro st st₂ hinv h
    by_cases hg : ev < st.volts
    · simp [runLoop, hg] at h
    · simp [runLoop, hg] at h
      rw [← h]
      exact hinv
  | cons s rest ih =>
    intro st st₂ hinv h
    by_cases hg : ev < st.volts
    · rw [runLoop_cons ev rta st s rest hg] at h
      exact ih _ _ (loopBody_tallyInv rta st s hinv) h
    · simp [runLoop, hg] at h
      rw [← h]
      exact hinv

/-- Cell-variant analogue of `tallyInv`. -/
def cellTallyInv (st : CellState) : Prop :=
  st.averageCurrent = (st.records.map Prod.snd).sum ∧
  st.totalReadings = st.records.length

lemma cellLoop_tallyInv (ev : ℚ) :
    ∀ samples st st₂, cellTallyInv st →
      cellLoop ev st samples = some st₂ → cellTallyInv st₂ := by
  intro samples
  induction samples with
  | nil =>
    intro st st₂ hinv h
    by_cases hg : ev < st.volts
    · simp [cellLoop, hg] at h
    · simp [cellLoop, hg] at h
      rw [← h]
      exact hinv
  | cons s rest ih =>
    intro st st₂ hinv h
    by_cases hg : ev < st.volts
    · rw [cellLoop_cons ev st s rest hg] at h
      refine ih _ _ ?_ h
      obtain ⟨hsum, hlen⟩ := hinv
      constructor
      · simp [cellBody, hsum]
      · simp [cellBody, hlen]
    · simp [cellLoop, hg] at h
      rw [← h]
      exact hinv

/-- Claim C7: with at least one logged record, the reported average
current of the 2S variant equals the sum of the per-record averaged
currents divided by the record count. -/
theorem average_current_from_records (ev v0 : ℚ) (rta : ℕ) (elapsedNs : ℕ)
    (samples : List Sample) (st₂ : LoopState)
    (h : runLoop ev rta (initState v0) samples = some st₂)
    (hN : 1 ≤ st₂.records.length) :
    (li2sSummary st₂ elapsedNs).averageCurrent
      = (st₂.records.map (fun r => r.2.1)).sum / (st₂.records.length : ℚ) := by
  have hinv := runLoop_tallyInv ev rta samples (initState v0) st₂
    (by constructor <;> simp [initState]) h
  obtain ⟨hsum, hlen⟩ := hinv
  have hpos : 0 < st₂.totalReadings := by omega
  simp only [li2sSummary, hpos, if_true]
  rw [hsum, hlen]

/-- Witness for C7: the concrete two-sample run logs one record of
current `1`, and the reported average current is `1 / 1`. -/
theorem average_current_from_records_witness :
    (li2sSummary ⟨5, 0, 0, 0, 0, 1, 1, [(5, 1, 0)], 2⟩ 3600).averageCurrent
      = (([(5, 1, 0)] : List (ℚ × ℚ × ℚ)).map (fun r => r.2.1)).sum
          / (([(5, 1, 0)] : List (ℚ × ℚ × ℚ)).length : ℚ) :=
  average_current_from_records 5 7 2 3600 [⟨6, 1, 0⟩, ⟨4, 1, 0⟩] _
    (by norm_num [runLoop, loopBody, initState]) (by norm_num)

/-- Claim C8: a run that logs zero records reports average current `0`
and capacity `0` in both variants; the division by the record count is
guarded by `totalReadings > 0` and is skipped. -/
theorem zero_records_zero_capacity (ev v0 : ℚ) (rta : ℕ) (elapsedNs : ℕ) :
    (∀ samples st₂, runLoop ev rta (initState v0) samples = some st₂ →
       st₂.records = [] →
       (li2sSummary st₂ elapsedNs).averageCurrent = 0 ∧
       (li2sSummary st₂ elapsedNs).capacity = 0) ∧
    (∀ samples st₂, cellLoop ev (cellInit v0) samples = some st₂ →
       st₂.records = [] →
       (cellSummary st₂).averageCurrent = 0 ∧ (cellSummary st₂).capacity = 0) := by
  constructor
  · intro samples st₂ h hrec
    have hinv := runLoop_tallyInv ev rta samples (initState v0) st₂
      (by constructor <;> simp [initState]) h
    obtain ⟨hsum, hlen⟩ := hinv
    rw [hrec] at hsum hlen
    simp at hsum hlen
    have : (li2sSummary st₂ elapsedNs).averageCurrent = 0 := by
      simp [li2sSummary, hlen, hsum]
    refine ⟨this, ?_⟩
    simp only [li2sSummary] at this ⊢
    rw [this]
    ring
  · intro samples st₂ h hrec
    have hinv := cellLoop_tallyInv ev samples (cellInit v0) st₂
      (by constructor <;> simp [cellInit]) h
    obtain ⟨hsum, hlen⟩ := hinv
    rw [hrec] at hsum hlen
    simp at hsum hlen
    have : (cellSummary st₂).averageCurrent = 0 := by
      simp [cellSummary, hlen, hsum]
    refine ⟨this, ?_⟩
    simp only [cellSummary] at this ⊢
    rw [this]
    ring

/-- Witness for C8: runs of both variants whose start voltage is
already at the threshold exit with zero records and report zeros. -/
theorem zero_records_zero_capacity_witness :
    ((li2sSummary (initState 1) 7200).averageCurrent = 0 ∧
       (li2sSummary (initState 1) 7200).capacity = 0) ∧
    ((cellSummary (cellInit 1)).averageCurrent = 0 ∧
       (cellSummary (cellInit 1)).capacity = 0) :=
  ⟨(zero_records_zero_capacity 5.8 1 8 7200).1 [] _
      (by norm_num [runLoop, initState]) rfl,
   (zero_records_zero_capacity 2.7 1 8 7200).2 [] _
      (by norm_num [cellLoop, cellInit]) rfl⟩

/-!
Per-record averaging (claim C6): every record the 2S loop logs is the
arithmetic mean of exactly `readingsToAverage` consecutive raw samples,
the ones accumulated since the previous record boundary.
-/

/-- Sum of the voltages of a list of raw samples. -/
def sumV (l : List Sample) : ℚ := (l.map Sample.volts).sum

/-- Sum of the currents of a list of raw samples. -/
def sumA (l : List Sample) : ℚ := (l.map Sample.amps).sum

/-- Sum of the temperatures of a list of raw samples. -/
def sumT (l : List Sample) : ℚ := (l.map Sample.temp).sum

/-- The arithmetic mean of a window of raw samples, as the
`(voltage, current, temperature)` triple a log record carries. -/
def meanRecord (w : List Sample) : ℚ × ℚ × ℚ :=
  (sumV w / (w.length : ℚ), sumA w / (w.length : ℚ), sumT w / (w.length : ℚ))

lemma sumV_append (l : List Sample) (s : Sample) :
    sumV (l ++ [s]) = sumV l + s.volts := by
  simp [sumV]

lemma sumA_append (l : List Sample) (s : Sample) :
    sumA (l ++ [s]) = sumA l + s.amps := by
  simp [sumA]

lemma sumT_append (l : List Sample) (s : Sample) :
    sumT (l ++ [s]) = sumT l + s.temp := by
  simp [sumT]

lemma runLoop_windows (ev : ℚ) (rta : ℕ) (h1 : 1 ≤ rta) :
    ∀ (suf : List Sample) (st : LoopState) (windows : List (List Sample))
      (pending : List Sample) (st₂ : LoopState),
      (∀ w ∈ windows, w.length = rta) →
      st.readCount = pending.length →
      pending.length < rta →
      st.Vave = sumV pending →
      st.Aave = sumA pending →
      st.Tave = sumT pending →
      st.records = windows.map meanRecord →
      runLoop ev rta st suf = some st₂ →
      ∃ (windows₂ : List (List Sample)) (pending₂ suf₂ : List Sample),
        windows.flatten ++ pending ++ suf = windows₂.flatten ++ pending₂ ++ suf₂ ∧
        (∀ w ∈ windows₂, w.length = rta) ∧
        st₂.records = windows₂.map meanRecord := by
  intro suf
  induction suf with
  | nil =>
    intro st windows pending st₂ hw hrc hlt hV hA hT hrec h
    by_cases hg : ev < st.volts
    · simp [runLoop, hg] at h
    · simp [runLoop, hg] at h
      exact ⟨windows, pending, [], rfl, hw, by rw [← h]; exact hrec⟩
  | cons s rest ih =>
    intro st windows pending st₂ hw hrc hlt hV hA hT hrec h
    by_cases hg : ev < st.volts
    · rw [runLoop_cons ev rta st s rest hg] at h
      by_cases hb : rta ≤ st.readCount + 1
      · have hfull : pending.length + 1 = rta := by omega
        have hwin : (pending ++ [s]).length = rta := by
          simp [hfull]
        have hm : meanRecord (pending ++ [s])
            = ((st.Vave + s.volts) / (rta : ℚ), (st.Aave + s.amps) / (rta : ℚ),
               (st.Tave + s.temp) / (rta : ℚ)) := by
          rw [meanRecord, hwin, sumV_append, sumA_append, sumT_append, hV, hA, hT]
        obtain ⟨windows₂, pending₂, suf₂, heq, hw₂, hr₂⟩ :=
          ih (loopBody rta st s) (windows ++ [pending ++ [s]]) [] st₂
            (by
              intro w hw'
              rcases List.mem_append.mp hw' with hin | hone
              · exact hw w hin
              · have : w = pending ++ [s] := by simpa using hone
                rw [this]
                exact hwin)
            (by simp [loopBody, hb])
            (by simpa using h1)
            (by simp [loopBody, hb, sumV])
            (by simp [loopBody, hb, sumA])
            (by simp [loopBody, hb, sumT])
            (by
              simp only [loopBody, hb, if_true, List.map_append, List.map_cons,
                List.map_nil]
              rw [hrec, hm])
            h
        refine ⟨windows₂, pending₂, suf₂, ?_, hw₂, hr₂⟩
        rw [← heq]
        simp [List.append_assoc]
      · obtain ⟨windows₂, pending₂, suf₂, heq, hw₂, hr₂⟩ :=
          ih (loopBody rta st s) windows (pending ++ [s]) st₂
            hw
            (by simp only [loopBody, hb, if_false]; simp [hrc])
            (by
              have : pending.length + 1 < rta := by omega
              simpa using this)
            (by simp only [loopBody, hb, if_false]; simp [sumV_append, hV])
            (by simp only [loopBody, hb, if_false]; simp [sumA_append, hA])
            (by simp only [loopBody, hb, if_false]; simp [sumT_append, hT])
            (by simp only [loopBody, hb, if_false]; exact hrec)
            h
        refine ⟨windows₂, pending₂, suf₂, ?_, hw₂, hr₂⟩
        rw [← heq]
        simp [List.append_assoc]
    · simp [runLoop, hg] at h
      exact ⟨windows, pending, s :: rest, rfl, hw, by rw [← h]; exact hrec⟩

/-- Claim C6: on any normal exit of the 2S loop, the raw sample stream
splits into consecutive windows of exactly `readingsToAverage` samples
(followed by at most one partial window, which logs nothing, and the
unread remainder), and the logged records are precisely the arithmetic
means of those windows in order. -/
theorem records_are_window_means (ev v0 : ℚ) (rta : ℕ) (h1 : 1 ≤ rta)
    (samples : List Sample) (st₂ : LoopState)
    (h : runLoop ev rta (initState v0) samples = some st₂) :
    ∃ (windows : List (List Sample)) (pending suf : List Sample),
      samples = windows.flatten ++ pending ++ suf ∧
      (∀ w ∈ windows, w.length = rta) ∧
      st₂.records = windows.map meanRecord := by
  obtain ⟨w₂, p₂, s₂, heq, hw₂, hr₂⟩ :=
    runLoop_windows ev rta h1 samples (initState v0) [] [] st₂
      (by simp)
      (by simp [initState])
      (by simpa using h1)
      (by simp [initState, sumV])
      (by simp [initState, sumA])
      (by simp [initState, sumT])
      (by simp [initState])
      h
  exact ⟨w₂, p₂, s₂, by simpa using heq, hw₂, hr₂⟩

/-- Witness for C6: in the concrete two-sample run with a window of
two, the one logged record is the mean of the one full window. -/
theorem records_are_window_means_witness :
    ∃ (windows : List (List Sample)) (pending suf : List Sample),
      [(⟨6, 1, 0⟩ : Sample), ⟨4, 1, 0⟩] = windows.flatten ++ pending ++ suf ∧
      (∀ w ∈ windows, w.length = 2) ∧
      (⟨5, 0, 0, 0, 0, 1, 1, [(5, 1, 0)], 2⟩ : LoopState).records
        = windows.map meanRecord :=
  records_are_window_means 5 7 2 (by norm_num) [⟨6, 1, 0⟩, ⟨4, 1, 0⟩] _
    (by norm_num [runLoop, loopBody, initState])

/-!
Whole-program exit behaviour (claims C1 and C4) and elapsed-hours
derivation (claim C2).
-/

/-- Wall-clock duration in hours corresponding to a `monotonic_ns`
difference, the spec's notion of total elapsed time. -/
def wallClockHours (elapsedNs : ℕ) : ℚ := ((elapsedNs : ℚ) / 1000000000) / 3600

/-- Counterexample to C1 as stated: in a 2S run whose first loop
iteration raises, the failure propagates (`faulted = true`) and the
run summary is never appended — the log gets zero summary blocks, not
one, because the end-of-run statistics sit inside the `try` body, which
an exception skips on its way to `finally`. -/
theorem summary_skipped_on_fault_cex :
    li2sMain 7 1 [Inp.fault] = some ⟨[], true, ⟨false, false, false, false⟩⟩ ∧
    (li2sMain 7 1 [Inp.fault]).map (fun r => r.summaries.length) ≠ some 1 := by
  constructor
  · norm_num [li2sMain, runLoopF, initState, Li2S.endVoltage, Li2S.readingsToAverage,
      finallyBlock, relaysInit]
  · norm_num [li2sMain, runLoopF, initState, Li2S.endVoltage, Li2S.readingsToAverage,
      finallyBlock, relaysInit]

/-- Claim C1 as amended: in both variants the run summary is computed
and appended exactly once when the loop exits normally through the
voltage threshold; when an unexpected failure propagates out of the
loop body the summary is skipped entirely (only the relay cleanup
runs). -/
theorem summary_once_on_normal_exit_only :
    (∀ (v0 : ℚ) (elapsedNs : ℕ) (inputs : List Inp) (res : ProgResult),
       li2sMain v0 elapsedNs inputs = some res →
       (res.faulted = false → res.summaries.length = 1) ∧
       (res.faulted = true → res.summaries = [])) ∧
    (∀ (v0 : ℚ) (inputs : List Inp) (res : ProgResult),
       cellMain v0 inputs = some res →
       (res.faulted = false → res.summaries.length = 1) ∧
       (res.faulted = true → res.summaries = [])) := by
  constructor
  · intro v0 elapsedNs inputs res h
    unfold li2sMain at h
    cases heq : runLoopF Li2S.endVoltage Li2S.readingsToAverage (initState v0) inputs with
    | none => rw [heq] at h; simp at h
    | some x =>
      rw [heq] at h
      cases x with
      | ok st =>
        simp at h
        rw [← h]
        exact ⟨fun _ => rfl, fun hf => by simp at hf⟩
      | error e =>
        simp at h
        rw [← h]
        exact ⟨fun hf => by simp at hf, fun _ => rfl⟩
  · intro v0 inputs res h
    unfold cellMain at h
    cases heq : cellLoopF LiCell.endVoltage (cellInit v0) inputs with
    | none => rw [heq] at h; simp at h
    | some x =>
      rw [heq] at h
      cases x with
      | ok st =>
        simp at h
        rw [← h]
        exact ⟨fun _ => rfl, fun hf => by simp at hf⟩
      | error e =>
        simp at h
        rw [← h]
        exact ⟨fun hf => by simp at hf, fun _ => rfl⟩

/-- Witness for the amended C1: a concrete 2S run that exits normally
appends exactly one summary block. -/
theorem summary_once_on_normal_exit_only_witness :
    (⟨[li2sSummary (initState 1) 5], false,
        ⟨false, false, false, false⟩⟩ : ProgResult).summaries.length = 1 :=
  (summary_once_on_normal_exit_only.1 1 5 [] _
      (by norm_num [li2sMain, runLoopF, initState, Li2S.endVoltage,
        Li2S.readingsToAverage, finallyBlock, relaysInit])).1 rfl

/-- Claim C4: whatever way a run of either variant ends — normal
threshold exit or a failure propagating out of the loop body — the
`finally` block leaves all four relay channels deactivated, including
the channels that were never switched on. -/
theorem relays_deactivated_on_every_exit :
    (∀ (v0 : ℚ) (elapsedNs : ℕ) (inputs : List Inp) (res : ProgResult),
       li2sMain v0 elapsedNs inputs = some res →
       res.relays = ⟨false, false, false, false⟩) ∧
    (∀ (v0 : ℚ) (inputs : List Inp) (res : ProgResult),
       cellMain v0 inputs = some res →
       res.relays = ⟨false, false, false, false⟩) := by
  constructor
  · intro v0 elapsedNs inputs res h
    unfold li2sMain at h
    cases heq : runLoopF Li2S.endVoltage Li2S.readingsToAverage (initState v0) inputs with
    | none => rw [heq] at h; simp at h
    | some x =>
      rw [heq] at h
      cases x with
      | ok st =>
        simp at h
        rw [← h]
        simp [finallyBlock, relaysInit]
      | error e =>
        simp at h
        rw [← h]
        simp [finallyBlock, relaysInit]
  · intro v0 inputs res h
    unfold cellMain at h
    cases heq : cellLoopF LiCell.endVoltage (cellInit v0) inputs with
    | none => rw [heq] at h; simp at h
    | some x =>
      rw [heq] at h
      cases x with
      | ok st =>
        simp at h
        rw [← h]
        simp [finallyBlock, relaysInit]
      | error e =>
        simp at h
        rw [← h]
        simp [finallyBlock, relaysInit]

/-- Witness for C4: after a 2S run killed by an injected fault on its
first iteration, and after a normal cell run, all four relays are off. -/
theorem relays_deactivated_on_every_exit_witness :
    (⟨[], true, ⟨false, false, false, false⟩⟩ : ProgResult).relays
      = ⟨false, false, false, false⟩ ∧
    (⟨[cellSummary (cellInit 1)], false,
        ⟨false, false, false, false⟩⟩ : ProgResult).relays
      = ⟨false, false, false, false⟩ :=
  ⟨relays_deactivated_on_every_exit.1 7 1 [Inp.fault] _
      (by norm_num [li2sMain, runLoopF, initState, Li2S.endVoltage,
        Li2S.readingsToAverage, finallyBlock, relaysInit]),
   relays_deactivated_on_every_exit.2 1 [] _
      (by norm_num [cellMain, cellLoopF, cellInit, LiCell.endVoltage,
        finallyBlock, relaysInit])⟩

/-- Counterexample to C2 as stated: a one-reading cell-variant run
reports `totalHours = logInterval * totalReadings / 3600 = 1/240`,
which differs from the wall-clock duration of the run (22 s per reading
is the documented realized spacing; the cell script never reads a
clock, so its reported hours cannot track wall-clock time). -/
theorem cell_hours_not_wallclock_cex :
    (cellLoop LiCell.endVoltage (cellInit 3) [⟨2, 800, 0⟩]).map
        (fun st => (cellSummary st).totalHours) = some (1 / 240) ∧
    (1 / 240 : ℚ) ≠ wallClockHours 22000000000 := by
  constructor
  · norm_num [cellLoop, cellBody, cellInit, cellSummary, LiCell.endVoltage,
      LiCell.logInterval]
  · norm_num [wallClockHours]

/-- Claim C2 as amended: the 2S variant derives total elapsed hours
from the wall clock (`monotonic_ns` start/end) and not from
`logInterval * totalReadings`, and its capacity is average current
times those hours; the cell variant instead derives total hours from
`logInterval * totalReadings / 3600`, with capacity again average
current times its reported hours. -/
theorem elapsed_hours_by_variant :
    (∀ (st : LoopState) (elapsedNs : ℕ),
       (li2sSummary st elapsedNs).totalHours = wallClockHours elapsedNs ∧
       (li2sSummary st elapsedNs).capacity
         = (li2sSummary st elapsedNs).averageCurrent
             * (li2sSummary st elapsedNs).totalHours) ∧
    (∀ st : CellState,
       (cellSummary st).totalHours
         = LiCell.logInterval * (st.totalReadings : ℚ) / 3600 ∧
       (cellSummary st).capacity
         = (cellSummary st).averageCurrent * (cellSummary st).totalHours) ∧
    (li2sSummary (initState 0) 22000000000).totalHours
      ≠ Li2S.logInterval * ((initState 0).totalReadings : ℚ) / 3600 := by
  refine ⟨fun st elapsedNs => ⟨rfl, rfl⟩, fun st => ⟨rfl, rfl⟩, ?_⟩
  norm_num [li2sSummary, initState, Li2S.logInterval]

/-!
Temperature sub-read behaviour (claims C3 and C9).
-/

/-- Counterexample to C3 as stated: a malformed block whose first line
carries the `YES` validity marker but whose second line has no `t=`
marker makes `read_temp` fall past the `if equals_pos != -1` test and
off the end of the `try` body, returning Python `None` — not the
sentinel `-99`. -/
theorem read_temp_no_marker_returns_none_cex :
    read_temp (fun _ => none) (fun _ => [['Y', 'E', 'S'], ['a', 'b', 'c']]) 1
      = some none ∧
    (some (none : Option ℚ)) ≠ some (some (-99 : ℚ)) := by
  constructor
  · rfl
  · simp

/-- Claim C3 as amended: the bare `except` means no exception escapes
`read_temp` once the status line is valid, and every malformed block
that raises inside the `try` body — empty block, missing second line,
unparsable number after `t=` — yields exactly the sentinel `-99`; but a
block whose valid-status second line simply lacks the `t=` marker
yields Python `None` rather than `-99`. -/
theorem read_temp_sentinel_or_none (pf : List Char → Option ℚ) (fuel : ℕ) :
    (read_temp pf (fun _ => []) (fuel + 1) = some (some (-99))) ∧
    (∀ l0 : List Char, statusValid l0 = true →
       read_temp pf (fun _ => [l0]) (fuel + 1) = some (some (-99))) ∧
    (∀ (l0 l1 : List Char) (rest : List (List Char)),
       statusValid l0 = true → afterMarker l1 = none →
       read_temp pf (fun _ => l0 :: l1 :: rest) (fuel + 1) = some none) ∧
    (∀ (l0 l1 : List Char) (rest : List (List Char)) (ts : List Char),
       statusValid l0 = true → afterMarker l1 = some ts → pf ts = none →
       read_temp pf (fun _ => l0 :: l1 :: rest) (fuel + 1) = some (some (-99))) ∧
    (∀ (l0 l1 : List Char) (rest : List (List Char)) (ts : List Char) (q : ℚ),
       statusValid l0 = true → afterMarker l1 = some ts → pf ts = some q →
       read_temp pf (fun _ => l0 :: l1 :: rest) (fuel + 1)
         = some (some (q / 1000))) := by
  refine ⟨?_, ?_, ?_, ?_, ?_⟩
  · simp [read_temp, waitValid]
  · intro l0 hs
    simp [read_temp, waitValid, hs]
  · intro l0 l1 rest hs ha
    simp [read_temp, waitValid, hs, ha]
  · intro l0 l1 rest ts hs ha hpf
    simp [read_temp, waitValid, hs, ha, hpf]
  · intro l0 l1 rest ts q hs ha hpf
    simp [read_temp, waitValid, hs, ha, hpf]

/-- Witness for the amended C3: a concrete valid-status block with no
`t=` marker on its second line makes `read_temp` return Python
`None`. -/
theorem read_temp_sentinel_or_none_witness :
    read_temp (fun _ => none) (fun _ => [['Y', 'E', 'S'], ['a']]) 1 = some none :=
  (read_temp_sentinel_or_none (fun _ => none) 0).2.2.1 ['Y', 'E', 'S'] ['a'] []
    (by decide) (by decide)

/-- Claim C9: the retry loop of `read_temp` has no retry bound — on a
raw-block stream whose first line never ends in `YES` (and never raises,
i.e. each block is nonempty) the loop is still spinning after any
amount of fuel, so `read_temp` never returns. -/
theorem retry_loop_never_terminates (reads : ℕ → List (List Char))
    (hbad : ∀ i, ∃ (l0 : List Char) (rest : List (List Char)),
       reads i = l0 :: rest ∧ statusValid l0 = false) :
    ∀ (pf : List Char → Option ℚ) (fuel : ℕ), read_temp pf reads fuel = none := by
  have hwait : ∀ fuel i, waitValid reads i fuel = none := by
    intro fuel
    induction fuel with
    | zero => intro i; rfl
    | succ n ih =>
      intro i
      obtain ⟨l0, rest, heq, hs⟩ := hbad i
      simp [waitValid, heq, hs]
      exact ih (i + 1)
  intro pf fuel
  simp [read_temp, hwait fuel 0]

/-- Witness for C9: on the constant stream of `NO`-status blocks,
`read_temp` with fuel 5 is still retrying. -/
theorem retry_loop_never_terminates_witness :
    read_temp (fun _ => none) (fun _ => [['N', 'O']]) 5 = none :=
  retry_loop_never_terminates (fun _ => [['N', 'O']])
    (fun _ => ⟨['N', 'O'], [], rfl, by decide⟩) (fun _ => none) 5

end PowerMon
